import Mathlib

/-!
Verification of the Fair Marketplace distribution engine (marketplace.js /
config.js) and the peg-currency conversion contract.

The document store is modelled as a plain list of offers; aggregation stages
($match, $sort, $group/$push, $addFields, $unwind, $skip, $limit) become the
corresponding list operations.  Sorting in the store leaves the relative
order of tied documents unspecified; we model it by insertion sort on the
exact sort keys of each pipeline, which realises one admissible outcome, and
we only prove order properties that every admissible outcome shares
(pairwise sortedness w.r.t. the sort key, permutation of the input).
Floating-point arithmetic (ratings, $rand draws, weighted scores, currency
amounts) is modelled with exact rationals.  Aggregation failures (e.g.
$toInt on a non-numeric string, negative $skip) are modelled by Option:
none is a thrown store error.
-/

namespace Marketplace

/-- A stored offer document.  Fields not used by any distribution strategy
(title, price, description, stock, tags) are omitted; `rating` is the
float rating modelled as a rational, `createdAt` a millisecond timestamp. -/
structure Offer where
  oid : String
  gameCategory : String
  sellerId : String
  rating : ℚ
  createdAt : Int
deriving Repr, DecidableEq

/-- config.app.defaultPageSize. -/
def defaultPageSize : Int := 10

/-- config.app.roundRobin.seedUpdateIntervalMinutes. -/
def seedUpdateIntervalMinutes : Nat := 1

/-- Value of `seedInterval = seedUpdateIntervalMinutes * 60000` in both strategies. -/
def seedIntervalMs : Nat := seedUpdateIntervalMinutes * 60000

/-- config.app.quota.defaultMaxOffersPerSeller. -/
def defaultMaxOffersPerSeller : Nat := 2

/-- config.app.quota.maxMaxOffersPerSeller. -/
def maxMaxOffersPerSeller : Nat := 10

/-- Decimal value of a digit string (used to model $toInt on a digit-only
suffix). -/
def digitsVal (cs : List Char) : Nat :=
  cs.foldl (fun a c => a * 10 + (c.toNat - 48)) 0

/-- Model of `$toInt { $substr: [sellerId, 7, -1] }`: take the characters
from index 7 on; $toInt succeeds on a nonempty all-digit string and throws
otherwise (empty result of $substr included), modelled by none. -/
def toIntSuffix7 (s : String) : Option Nat :=
  let t := s.toList.drop 7
  if t ≠ [] ∧ t.all Char.isDigit then some (digitsVal t) else none

/-- Model of `const seed = randomSeed || Math.floor(Date.now() / seedInterval)`
in both seed-based strategies.  JavaScript `||` takes the fallback whenever
`randomSeed` is falsy, i.e. null/absent or 0. -/
def seedOf (randomSeed : Option Nat) (nowMs : Nat) : Nat :=
  match randomSeed with
  | some s => if s = 0 then nowMs / seedIntervalMs else s
  | none => nowMs / seedIntervalMs

/-- ECMAScript `Array.prototype.slice(s, e)`: negative endpoints count from
the end of the array, and both endpoints are clamped to the array bounds. -/
def jsSlice {α : Type} (l : List α) (s e : Int) : List α :=
  let len : Int := l.length
  let lo := if s < 0 then max (len + s) 0 else min s len
  let hi := if e < 0 then max (len + e) 0 else min e len
  (l.take hi.toNat).drop lo.toNat

/-- Model of `Math.ceil(totalCount / limit)` for a non-negative count.  All claims
constrain `limit ≥ 1`; for `limit ≤ 0` the JavaScript float division yields
an infinite/NaN value with no integer counterpart, modelled here as 0 and
never relied upon. -/
def ceilDiv (total : Nat) (limit : Int) : Nat :=
  if 0 < limit then (total + limit.toNat - 1) / limit.toNat else 0

/-- The pagination block every strategy returns. -/
structure Pagination where
  page : Int
  limit : Int
  total : Nat
  totalPages : Nat
  hasNextPage : Bool
  hasPrevPage : Bool
deriving Repr, DecidableEq

/-- The pagination object literal shared by all four strategies:
`{ page, limit, total, totalPages: Math.ceil(total/limit),
hasNextPage: page*limit < total, hasPrevPage: page > 1 }`. -/
def mkPagination (page limit : Int) (total : Nat) : Pagination :=
  { page := page
    limit := limit
    total := total
    totalPages := ceilDiv total limit
    hasNextPage := decide (page * limit < (total : Int))
    hasPrevPage := decide (1 < page) }

/-- Result of one strategy call (`seed` is absent for Weighted Random). -/
structure StrategyResult where
  offers : List Offer
  pagination : Pagination
  seed : Option Nat
deriving Repr, DecidableEq

/-- Stage `$match: { gameCategory }` over the stored collection. -/
def matched (db : List Offer) (cat : String) : List Offer :=
  db.filter (fun o => decide (o.gameCategory = cat))

/-- Model of `collection.countDocuments({ gameCategory })` — the independent
full-category count used by every strategy for its pagination block. -/
def countDocuments (db : List Offer) (cat : String) : Nat :=
  (matched db cat).length

/-- Trivial relation used as the innermost tiebreak of a sort key. -/
def TrivialRel {α : Type} (_ _ : α) : Prop := True

/-- Lexicographic sort-key layer: order by `k` ascending, break ties by `r`.
A descending key is expressed by negating `k`. -/
def keyLex {α β : Type} [LinearOrder β] (k : α → β) (r : α → α → Prop)
    (a b : α) : Prop :=
  k a < k b ∨ (k a = k b ∧ r a b)

instance {α : Type} : DecidableRel (TrivialRel (α := α)) :=
  fun _ _ => .isTrue trivial

instance {α : Type} : IsTotal α TrivialRel :=
  ⟨fun _ _ => Or.inl trivial⟩

instance {α : Type} : IsTrans α TrivialRel :=
  ⟨fun _ _ _ _ _ => trivial⟩

instance {α β : Type} [LinearOrder β] (k : α → β) (r : α → α → Prop)
    [IsTotal α r] : IsTotal α (keyLex k r) := by
  refine ⟨fun a b => ?_⟩
  rcases lt_trichotomy (k a) (k b) with h | h | h
  · exact Or.inl (Or.inl h)
  · rcases IsTotal.total (r := r) a b with h2 | h2
    · exact Or.inl (Or.inr ⟨h, h2⟩)
    · exact Or.inr (Or.inr ⟨h.symm, h2⟩)
  · exact Or.inr (Or.inl h)

instance {α β : Type} [LinearOrder β] (k : α → β) (r : α → α → Prop)
    [IsTrans α r] : IsTrans α (keyLex k r) := by
  refine ⟨fun a b c hab hbc => ?_⟩
  rcases hab with h1 | h1
  · rcases hbc with h2 | h2
    · exact Or.inl (lt_trans h1 h2)
    · exact Or.inl (lt_of_lt_of_le h1 (le_of_eq h2.1))
  · rcases hbc with h2 | h2
    · exact Or.inl (lt_of_le_of_lt (le_of_eq h1.1) h2)
    · exact Or.inr ⟨h1.1.trans h2.1, IsTrans.trans a b c h1.2 h2.2⟩

instance {α β : Type} [LinearOrder β] (k : α → β) (r : α → α → Prop)
    [DecidableRel r] : DecidableRel (keyLex k r) :=
  fun a b => inferInstanceAs (Decidable (_ ∨ _))

/-- Key of `$sort: { rating: -1, createdAt: -1 }` (used by True Round-Robin and
Quota-Based before grouping). -/
def ratingDateLE : Offer → Offer → Prop :=
  keyLex (fun o => -o.rating) (keyLex (fun o => -o.createdAt) TrivialRel)

/-- Key of `$sort: { sellerHash: 1, rating: -1, createdAt: -1 }` on bucket-annotated
offers (Hash Round-Robin). -/
def hashSortLE : Offer × Nat → Offer × Nat → Prop :=
  keyLex (fun p => p.2)
    (keyLex (fun p => -p.1.rating) (keyLex (fun p => -p.1.createdAt) TrivialRel))

/-- Key of `$sort: { sellerOrder: 1 }` on keyed seller groups (True Round-Robin). -/
def groupKeyLE : String × Nat × List Offer → String × Nat × List Offer → Prop :=
  keyLex (fun g => g.2.1) TrivialRel

/-- Key of `$sort: { randomOrder: 1 }` on quota groups (Quota-Based). -/
def quotaRandLE : String × ℚ × List Offer → String × ℚ × List Offer → Prop :=
  keyLex (fun g => g.2.1) TrivialRel

/-- Key of `$sort: { weightedScore: -1 }` on score-annotated offers (Weighted
Random). -/
def weightedGE : Offer × ℚ → Offer × ℚ → Prop :=
  keyLex (fun p => -p.2) TrivialRel

instance : DecidableRel ratingDateLE := fun a b => by
  unfold ratingDateLE; infer_instance

instance : IsTotal Offer ratingDateLE := by
  unfold ratingDateLE; infer_instance

instance : IsTrans Offer ratingDateLE := by
  unfold ratingDateLE; infer_instance

instance : IsTotal (Offer × Nat) hashSortLE := by
  unfold hashSortLE; infer_instance

instance : IsTrans (Offer × Nat) hashSortLE := by
  unfold hashSortLE; infer_instance

instance : IsTotal (String × Nat × List Offer) groupKeyLE := by
  unfold groupKeyLE; infer_instance

instance : IsTrans (String × Nat × List Offer) groupKeyLE := by
  unfold groupKeyLE; infer_instance

instance : IsTotal (String × ℚ × List Offer) quotaRandLE := by
  unfold quotaRandLE; infer_instance

instance : IsTrans (String × ℚ × List Offer) quotaRandLE := by
  unfold quotaRandLE; infer_instance

instance : IsTotal (Offer × ℚ) weightedGE := by
  unfold weightedGE; infer_instance

instance : IsTrans (Offer × ℚ) weightedGE := by
  unfold weightedGE; infer_instance

instance : DecidableRel hashSortLE := fun a b => by
  unfold hashSortLE; infer_instance

instance : DecidableRel groupKeyLE := fun a b => by
  unfold groupKeyLE; infer_instance

instance : DecidableRel quotaRandLE := fun a b => by
  unfold quotaRandLE; infer_instance

instance : DecidableRel weightedGE := fun a b => by
  unfold weightedGE; infer_instance

/-- Hash Round-Robin bucket, the `sellerHash` $addFields stage:
`((toInt(cond(strLenCP(sellerId) > 7, substr(sellerId,7,-1), "1")) + seed)
* (seed + 37)) mod 10000`.  The $cond guards only the length: a sellerId of
length ≥ 8 whose tail is not numeric makes $toInt throw (none). -/
def sellerHash (s : String) (seed : Nat) : Option Nat :=
  if 7 < s.length then
    (toIntSuffix7 s).map (fun n => (n + seed) * (seed + 37) % 10000)
  else
    some ((1 + seed) * (seed + 37) % 10000)

/-- The matched candidates annotated with their sellerHash bucket; none if
any document's $toInt throws. -/
def hashAnnotated (db : List Offer) (cat : String) (seed : Nat) :
    Option (List (Offer × Nat)) :=
  (matched db cat).mapM (fun o => (sellerHash o.sellerId seed).map (fun h => (o, h)))

/-- Method 1, `getOffersHashRoundRobin`: match, annotate with sellerHash,
sort by (bucket asc, rating desc, createdAt desc), `$skip`/`$limit`
(the store rejects a negative skip or a non-positive limit), with the
independent countDocuments total.  `limit = limit || defaultPageSize`.
The real pipeline leaves the helper fields sellerHash/seedUsed on the
returned documents (its `$project` is commented out); the model returns the
underlying documents, the bucket being recoverable through `sellerHash`. -/
def getOffersHashRoundRobin (db : List Offer) (cat : String)
    (page limit0 : Int) (randomSeed : Option Nat) (nowMs : Nat) :
    Option StrategyResult :=
  let limit := if limit0 = 0 then defaultPageSize else limit0
  let skip := (page - 1) * limit
  let seed := seedOf randomSeed nowMs
  if skip < 0 ∨ limit ≤ 0 then none
  else
    (hashAnnotated db cat seed).map (fun ann =>
      let sorted := List.insertionSort hashSortLE ann
      { offers := ((sorted.map Prod.fst).drop skip.toNat).take limit.toNat
        pagination := mkPagination page limit (countDocuments db cat)
        seed := some seed })

/-- First-occurrence deduplication, auxiliary accumulator form. -/
def dedupFirstAux (seen : List String) : List String → List String
  | [] => []
  | s :: rest =>
      if s ∈ seen then dedupFirstAux seen rest
      else s :: dedupFirstAux (s :: seen) rest

/-- The distinct seller ids of a document stream.  `$group: {_id: "$sellerId"}`
emits one group per distinct sellerId in an unspecified order; we realise
first-occurrence order (any order is then re-sorted by the pipelines). -/
def dedupFirst (l : List String) : List String := dedupFirstAux [] l

/-- Stage `$group: { _id: "$sellerId", offers: { $push: "$$ROOT" } }`: one group per
distinct seller, each group holding that seller's documents in stream
order. -/
def sellerGroups (l : List Offer) : List (String × List Offer) :=
  (dedupFirst (l.map (fun o => o.sellerId))).map
    (fun s => (s, l.filter (fun o => decide (o.sellerId = s))))

/-- True Round-Robin seller order key:
`(toInt(substr(sellerId,7,-1)) + seed) mod 1000`; no length guard, so a
sellerId without a parsable suffix makes the aggregation throw. -/
def sellerOrderKey (s : String) (seed : Nat) : Option Nat :=
  (toIntSuffix7 s).map (fun n => (n + seed) % 1000)

/-- Seller groups annotated with their sellerOrder key; none if any group's
$toInt throws. -/
def keyedGroups (l : List Offer) (seed : Nat) :
    Option (List (String × Nat × List Offer)) :=
  (sellerGroups l).mapM
    (fun g => (sellerOrderKey g.1 seed).map (fun k => (g.1, k, g.2)))

/-- Model of `Math.max(...sellerGroups.map(g => g.offers.length))`; for an empty
group list JavaScript yields -Infinity and the round loop does not run,
which coincides with the 0 returned here. -/
def maxGroupLen (gs : List (List Offer)) : Nat :=
  gs.foldr (fun g m => max g.length m) 0

/-- The round-robin interleave loop: for round = 0 .. max-1 push, for each
seller group in order, the group's element at index `round` if it exists. -/
def interleave (gs : List (List Offer)) : List Offer :=
  (List.range (maxGroupLen gs)).flatMap
    (fun r => gs.flatMap (fun g => g[r]?.toList))

/-- The fully interleaved pre-pagination sequence (`roundRobinOffers`) of
True Round-Robin: match, sort by (rating desc, createdAt desc), group by
seller, key and sort the groups, interleave by rounds. -/
def trueSequence (db : List Offer) (cat : String) (seed : Nat) :
    Option (List Offer) :=
  (keyedGroups (List.insertionSort ratingDateLE (matched db cat)) seed).map
    (fun kgs =>
      interleave ((List.insertionSort groupKeyLE kgs).map (fun g => g.2.2)))

/-- Method 2, `getOffersTrueRoundRobin`: the interleaved sequence sliced by
`roundRobinOffers.slice(skip, skip + limit)` (JavaScript slice semantics),
with the independent countDocuments total. -/
def getOffersTrueRoundRobin (db : List Offer) (cat : String)
    (page limit0 : Int) (randomSeed : Option Nat) (nowMs : Nat) :
    Option StrategyResult :=
  let limit := if limit0 = 0 then defaultPageSize else limit0
  let skip := (page - 1) * limit
  let seed := seedOf randomSeed nowMs
  (trueSequence db cat seed).map (fun seq =>
    { offers := jsSlice seq skip (skip + limit)
      pagination := mkPagination page limit (countDocuments db cat)
      seed := some seed })

/-- Effective quota: `maxPerSeller = maxPerSeller || defaultMaxOffersPerSeller`
(0 is falsy) then clamped down to maxMaxOffersPerSeller. -/
def effectiveQuota (maxPerSeller0 : Nat) : Nat :=
  let m := if maxPerSeller0 = 0 then defaultMaxOffersPerSeller else maxPerSeller0
  if maxMaxOffersPerSeller < m then maxMaxOffersPerSeller else m

/-- Quota-Based flattened pre-pagination sequence: match, sort by
(rating desc, createdAt desc), group by seller, `$slice` each group to the
effective quota, order groups by their `$rand` key (`rand`, an oracle for
the per-group uniform draw), `$unwind`/`$replaceRoot` (concatenate). -/
def quotaFlattened (db : List Offer) (cat : String) (maxPerSeller0 : Nat)
    (rand : String → ℚ) : List Offer :=
  let gs := sellerGroups (List.insertionSort ratingDateLE (matched db cat))
  let capped := gs.map (fun g => (g.1, rand g.1, g.2.take (effectiveQuota maxPerSeller0)))
  (List.insertionSort quotaRandLE capped).flatMap (fun g => g.2.2)

/-- Method 4, `getOffersQuotaBased`: the flattened sequence sliced with
`$skip`/`$limit` (store rejects negative skip / non-positive limit). -/
def getOffersQuotaBased (db : List Offer) (cat : String)
    (page limit0 : Int) (maxPerSeller0 : Nat) (rand : String → ℚ) :
    Option StrategyResult :=
  let limit := if limit0 = 0 then defaultPageSize else limit0
  let skip := (page - 1) * limit
  if skip < 0 ∨ limit ≤ 0 then none
  else some
    { offers := ((quotaFlattened db cat maxPerSeller0 rand).drop skip.toNat).take limit.toNat
      pagination := mkPagination page limit (countDocuments db cat)
      seed := none }

/-- The `$lookup` seller statistic of Weighted Random: how many documents of
the whole collection share this offer's sellerId and gameCategory. -/
def sellerCatCount (db : List Offer) (o : Offer) : Nat :=
  (db.filter (fun x =>
    decide (x.sellerId = o.sellerId) && decide (x.gameCategory = o.gameCategory))).length

/-- Formula `weightedScore = randomScore * 100 + 100 / (sellerOfferCount + 1)` with
`randomScore` the per-document `$rand` draw supplied by the oracle `rand`. -/
def weightedScore (db : List Offer) (rand : Offer → ℚ) (o : Offer) : ℚ :=
  rand o * 100 + 100 / ((sellerCatCount db o : ℚ) + 1)

/-- The score-annotated candidates of Weighted Random, sorted by
`$sort: { weightedScore: -1 }`. -/
def weightedScored (db : List Offer) (cat : String) (rand : Offer → ℚ) :
    List (Offer × ℚ) :=
  List.insertionSort weightedGE
    ((matched db cat).map (fun o => (o, weightedScore db rand o)))

/-- Method 3, `getOffersWeightedRandom`: score, sort descending,
`$skip`/`$limit`, then `$project` away the helper fields. -/
def getOffersWeightedRandom (db : List Offer) (cat : String)
    (page limit0 : Int) (rand : Offer → ℚ) : Option StrategyResult :=
  let limit := if limit0 = 0 then defaultPageSize else limit0
  let skip := (page - 1) * limit
  if skip < 0 ∨ limit ≤ 0 then none
  else some
    { offers := (((weightedScored db cat rand).map Prod.fst).drop skip.toNat).take limit.toNat
      pagination := mkPagination page limit (countDocuments db cat)
      seed := none }

/-- Model of `parseFloat(x.toFixed(4))`: rounding to 4 decimal fractional
digits (binary floats are modelled as exact rationals throughout). -/
def round4 (x : ℚ) : ℚ := (round (x * 10000) : ℚ) / 10000

/-- The peg currency, `this.pegCurrency = 'USD'` in price-conversion.js. -/
def pegCurrency : String := "USD"

/-- Currency converter `convertToUSD(price, fromCurrency)` of
price-conversion.js: the price unchanged for USD; otherwise look the rate up
in the exchange-rate cache (`cache`, here a parameter), throw when it is
absent — or 0, since `if (!rate)` tests falsiness — and return
`parseFloat((price * rate).toFixed(4))`. -/
def convertToUSD (cache : String → Option ℚ) (price : ℚ)
    (fromCurrency : String) : Option ℚ :=
  if fromCurrency = pegCurrency then some price
  else
    (cache fromCurrency).bind (fun rate =>
      if rate = 0 then none else some (round4 (price * rate)))

/-- Currency converter `convertFromUSD(usdPrice, toCurrency)` of
price-conversion.js: the price unchanged for USD; otherwise look up the
to-USD rate (throwing when absent), form the reciprocal
`fromUSDRate = 1 / toUSDRate` and return
`parseFloat((usdPrice * fromUSDRate).toFixed(4))`. -/
def convertFromUSD (cache : String → Option ℚ) (usdPrice : ℚ)
    (toCurrency : String) : Option ℚ :=
  if toCurrency = pegCurrency then some usdPrice
  else
    (cache toCurrency).bind (fun toUSDRate =>
      if toUSDRate = 0 then none
      else some (round4 (usdPrice * (1 / toUSDRate))))

/-- The pagination metadata contract of §4.6: independent total, minimal
page count covering the total, hasNext/hasPrev characterisations. -/
def PaginationOK (page limit : Int) (total : Nat) (pg : Pagination) : Prop :=
  pg.page = page ∧ pg.limit = limit ∧ pg.total = total ∧
  total ≤ pg.totalPages * limit.toNat ∧
  (∀ q : Nat, total ≤ q * limit.toNat → pg.totalPages ≤ q) ∧
  (pg.hasNextPage = true ↔ page * limit < (total : Int)) ∧
  (pg.hasPrevPage = true ↔ 1 < page)

/-- The slice/metadata contract a strategy result must satisfy for a valid
request: correct metadata, a slice of length at most pageSize cut out of a
pre-pagination sequence at offset (page-1)*pageSize, and an empty (not
failing) slice when the page is out of range. -/
def SliceOK (page limit : Int) (total : Nat) (r : StrategyResult) : Prop :=
  PaginationOK page limit total r.pagination ∧
  r.offers.length ≤ limit.toNat ∧
  (∃ seq : List Offer, seq.length ≤ total ∧
    r.offers = (seq.drop ((page - 1) * limit).toNat).take limit.toNat) ∧
  (total ≤ ((page - 1) * limit).toNat → r.offers = [])

/-- Total form of the group annotation of `keyedGroups`, used to describe the
successful outcome of its `$toInt`. -/
def keyAnnot (seed : Nat) (g : String × List Offer) : String × Nat × List Offer :=
  (g.1, ((toIntSuffix7 g.1).getD 0 + seed) % 1000, g.2)

/-- Shorthand for building concrete stored offers. -/
def mkOffer (oid cat sid : String) (rating : ℚ) (created : Int) : Offer :=
  { oid := oid, gameCategory := cat, sellerId := sid
    rating := rating, createdAt := created }

/-- Concrete store: two sellers in category RPG. -/
def dbTwo : List Offer :=
  [mkOffer "o1" "RPG" "seller_1" 5 100,
   mkOffer "o2" "RPG" "seller_1" 4 90,
   mkOffer "o3" "RPG" "seller_2" 3 80]

/-- Concrete store: sellers seller_1 (5 listings), seller_2 (2), seller_3 (2)
in category RPG, the scenario of the True Round-Robin example. -/
def dbABC : List Offer :=
  [mkOffer "a1" "RPG" "seller_1" 5 100,
   mkOffer "a2" "RPG" "seller_1" 4 99,
   mkOffer "a3" "RPG" "seller_1" 3 98,
   mkOffer "a4" "RPG" "seller_1" 2 97,
   mkOffer "a5" "RPG" "seller_1" 1 96,
   mkOffer "b1" "RPG" "seller_2" 5 95,
   mkOffer "b2" "RPG" "seller_2" 2 94,
   mkOffer "c1" "RPG" "seller_3" 1 93,
   mkOffer "c2" "RPG" "seller_3" 1 92]

/-- Concrete store: three sellers with two RPG listings each. -/
def dbSix : List Offer :=
  [mkOffer "p1" "RPG" "seller_1" 5 100,
   mkOffer "p2" "RPG" "seller_1" 4 99,
   mkOffer "q1" "RPG" "seller_2" 3 98,
   mkOffer "q2" "RPG" "seller_2" 2 97,
   mkOffer "r1" "RPG" "seller_3" 2 96,
   mkOffer "r2" "RPG" "seller_3" 1 95]

/-- Concrete store: a single RPG listing by seller_1. -/
def dbOne : List Offer :=
  [mkOffer "solo" "RPG" "seller_1" 5 100]

/-- Concrete rate cache holding only the PHP rate 0.0178 set up by
`initializeExchangeRates` in price-conversion.js. -/
def cachePHP : String → Option ℚ :=
  fun c => if c = "PHP" then some (178 / 10000) else none

/-! Helper lemmas about the embedding. -/

theorem mapM_eq_map {α β : Type} (l : List α) (f : α → Option β) (g : α → β)
    (h : ∀ a ∈ l, f a = some (g a)) : l.mapM f = some (l.map g) := by
  induction l with
  | nil => rfl
  | cons a t ih =>
    rw [List.mapM_cons, h a (List.mem_cons_self a t),
      ih (fun x hx => h x (List.mem_cons_of_mem a hx))]
    rfl

theorem mapM_some_forall {α β : Type} (l : List α) (f : α → Option β)
    (out : List β) (h : l.mapM f = some out) : ∀ a ∈ l, ∃ b, f a = some b := by
  induction l generalizing out with
  | nil => simp
  | cons a t ih =>
    rw [List.mapM_cons] at h
    intro x hx
    rcases hfa : f a with _ | b
    · rw [hfa] at h; simp at h
    · rcases hmt : t.mapM f with _ | bt
      · rw [hfa, hmt] at h; simp at h
      · rcases List.mem_cons.mp hx with rfl | hx2
        · exact ⟨b, hfa⟩
        · exact ih bt hmt x hx2

theorem mapM_map_rel {α β γ : Type} (f : α → Option β) (p : β → γ) (q : α → γ)
    (hpq : ∀ a b, f a = some b → p b = q a) :
    ∀ (l : List α) (out : List β), l.mapM f = some out → out.map p = l.map q := by
  intro l
  induction l with
  | nil =>
    intro out h
    injection h with h2
    rw [← h2]
    rfl
  | cons a t ih =>
    intro out h
    rw [List.mapM_cons] at h
    rcases hfa : f a with _ | b
    · rw [hfa] at h; simp at h
    · rcases hmt : t.mapM f with _ | bt
      · rw [hfa, hmt] at h; simp at h
      · rw [hfa, hmt] at h
        injection h with h2
        rw [← h2, List.map_cons, List.map_cons, hpq a b hfa, ih bt hmt]

theorem mem_dedupFirstAux (l : List String) :
    ∀ (seen : List String) (x : String),
      x ∈ dedupFirstAux seen l ↔ x ∈ l ∧ x ∉ seen := by
  induction l with
  | nil => intro seen x; simp [dedupFirstAux]
  | cons s t ih =>
    intro seen x
    by_cases hs : s ∈ seen
    · rw [dedupFirstAux, if_pos hs, ih seen x]
      simp only [List.mem_cons]
      constructor
      · exact fun h => ⟨Or.inr h.1, h.2⟩
      · rintro ⟨hst, hx⟩
        rcases hst with rfl | ht
        · exact absurd hs hx
        · exact ⟨ht, hx⟩
    · rw [dedupFirstAux, if_neg hs]
      simp only [List.mem_cons, ih (s :: seen) x, List.mem_cons, not_or]
      constructor
      · rintro (rfl | ⟨ht, hxs, hseen⟩)
        · exact ⟨Or.inl rfl, hs⟩
        · exact ⟨Or.inr ht, hseen⟩
      · rintro ⟨rfl | ht, hseen⟩
        · exact Or.inl rfl
        · by_cases hxs : x = s
          · exact Or.inl hxs
          · exact Or.inr ⟨ht, hxs, hseen⟩

theorem nodup_dedupFirstAux (l : List String) :
    ∀ seen : List String, (dedupFirstAux seen l).Nodup := by
  induction l with
  | nil => intro seen; simp [dedupFirstAux]
  | cons s t ih =>
    intro seen
    by_cases hs : s ∈ seen
    · rw [dedupFirstAux, if_pos hs]; exact ih seen
    · rw [dedupFirstAux, if_neg hs]
      refine List.nodup_cons.mpr ⟨?_, ih (s :: seen)⟩
      intro hmem
      exact ((mem_dedupFirstAux t (s :: seen) s).mp hmem).2 (List.mem_cons_self s seen)

theorem mem_dedupFirst (l : List String) (x : String) :
    x ∈ dedupFirst l ↔ x ∈ l := by
  rw [dedupFirst, mem_dedupFirstAux]
  simp

theorem nodup_dedupFirst (l : List String) : (dedupFirst l).Nodup :=
  nodup_dedupFirstAux l []

theorem fiber_flatten_perm (keys : List String) (l : List Offer)
    (hnd : keys.Nodup) (hcov : ∀ o ∈ l, o.sellerId ∈ keys) :
    ((keys.map (fun s => l.filter (fun o => decide (o.sellerId = s)))).flatten).Perm l := by
  induction keys generalizing l with
  | nil =>
    have hl : l = [] := by
      cases l with
      | nil => rfl
      | cons o t => exact absurd (hcov o (List.mem_cons_self o t)) (List.not_mem_nil o.sellerId)
    simp [hl]
  | cons s keys ih =>
    rw [List.map_cons, List.flatten_cons]
    rcases List.nodup_cons.mp hnd with ⟨hns, hnd2⟩
    have hmap : keys.map (fun t => l.filter (fun o => decide (o.sellerId = t)))
        = keys.map (fun t =>
            (l.filter (fun o => !(decide (o.sellerId = s)))).filter
              (fun o => decide (o.sellerId = t))) := by
      apply List.map_congr_left
      intro t ht
      rw [List.filter_filter]
      apply List.filter_congr
      intro o _
      by_cases h : o.sellerId = t
      · have hne : o.sellerId ≠ s := by
          intro he
          exact hns (by rw [← h, he] at ht; exact ht)
        have hts : t ≠ s := fun he => hne (h.trans he)
        simp [h, hne, hts]
      · simp [h]
    rw [hmap]
    have hcov2 : ∀ o ∈ l.filter (fun o => !(decide (o.sellerId = s))),
        o.sellerId ∈ keys := by
      intro o ho
      rcases List.mem_filter.mp ho with ⟨hol, hos⟩
      have hne : o.sellerId ≠ s := by simpa using hos
      rcases List.mem_cons.mp (hcov o hol) with he | h2
      · exact absurd he hne
      · exact h2
    have step := (ih (l.filter (fun o => !(decide (o.sellerId = s)))) hnd2 hcov2).append_left
      (l.filter (fun o => decide (o.sellerId = s)))
    exact step.trans (List.filter_append_perm _ l)

theorem flatMap_range_getElem {α : Type} (g : List α) (n : Nat) :
    (List.range n).flatMap (fun r => g[r]?.toList) = g.take n := by
  induction n with
  | zero => simp
  | succ n ih =>
    rw [List.range_succ, List.flatMap_append, ih, List.flatMap_cons,
      List.flatMap_nil, List.append_nil, List.take_succ]

theorem length_le_maxGroupLen (gs : List (List Offer)) :
    ∀ g ∈ gs, g.length ≤ maxGroupLen gs := by
  induction gs with
  | nil => simp
  | cons g t ih =>
    intro x hx
    rcases List.mem_cons.mp hx with rfl | hx2
    · exact le_max_left _ _
    · exact le_trans (ih x hx2) (le_max_right _ _)

theorem interleave_rounds_perm (gs : List (List Offer)) (n : Nat)
    (hn : ∀ g ∈ gs, g.length ≤ n) :
    ((List.range n).flatMap (fun r => gs.flatMap (fun g => g[r]?.toList))).Perm
      gs.flatten := by
  induction gs with
  | nil => simp
  | cons g t ih =>
    have h1 : (List.range n).flatMap (fun r => (g :: t).flatMap fun x => x[r]?.toList)
        = (List.range n).flatMap
            (fun r => g[r]?.toList ++ t.flatMap fun x => x[r]?.toList) := by
      simp only [List.flatMap_cons]
    rw [h1, List.flatten_cons]
    refine ((List.flatMap_append_perm (List.range n)
      (fun r => g[r]?.toList) (fun r => t.flatMap fun x => x[r]?.toList)).symm.trans ?_)
    rw [flatMap_range_getElem, List.take_of_length_le (hn g (List.mem_cons_self g t))]
    exact (ih (fun x hx => hn x (List.mem_cons_of_mem g hx))).append_left g

theorem interleave_perm_flatten (gs : List (List Offer)) :
    (interleave gs).Perm gs.flatten :=
  interleave_rounds_perm gs (maxGroupLen gs) (length_le_maxGroupLen gs)

theorem jsSlice_of_nonneg {α : Type} (l : List α) (s limit : Int)
    (hs : 0 ≤ s) (hl : 0 < limit) :
    jsSlice l s (s + limit) = (l.drop s.toNat).take limit.toNat := by
  unfold jsSlice
  have hse : ¬ s < 0 := not_lt.mpr hs
  have hsl : ¬ s + limit < 0 := by omega
  simp only [hse, if_false, hsl]
  rcases le_or_lt (l.length : Int) s with hcase | hcase
  · have h1 : min s (l.length : Int) = (l.length : Int) := min_eq_right hcase
    have h2 : min (s + limit) (l.length : Int) = (l.length : Int) := by
      apply min_eq_right; omega
    rw [h1, h2]
    have h3 : l.length ≤ s.toNat := by omega
    rw [Int.toNat_natCast, List.take_of_length_le (le_refl _),
      List.drop_eq_nil_of_le (le_refl _), List.drop_eq_nil_of_le h3]
    simp
  · have h1 : min s (l.length : Int) = s := min_eq_left (le_of_lt hcase)
    rw [h1, List.drop_take]
    rcases le_or_lt (s + limit) (l.length : Int) with hcase2 | hcase2
    · have h2 : min (s + limit) (l.length : Int) = s + limit := min_eq_left hcase2
      rw [h2]
      congr 1
      omega
    · have h2 : min (s + limit) (l.length : Int) = (l.length : Int) := by
        apply min_eq_right; omega
      rw [h2, Int.toNat_natCast]
      have hlen : (l.drop s.toNat).length = l.length - s.toNat := List.length_drop _ _
      rw [List.take_of_length_le (by omega), List.take_of_length_le (by omega)]

theorem mkPagination_ok (page limit : Int) (total : Nat) (hl : 1 ≤ limit) :
    PaginationOK page limit total (mkPagination page limit total) := by
  have h0 : (0 : Int) < limit := hl
  have hL : 0 < limit.toNat := by omega
  refine ⟨rfl, rfl, rfl, ?_, ?_, ?_, ?_⟩
  · show total ≤ ceilDiv total limit * limit.toNat
    rw [ceilDiv, if_pos h0, Nat.mul_comm]
    have h1 := Nat.div_add_mod (total + limit.toNat - 1) limit.toNat
    have h2 : (total + limit.toNat - 1) % limit.toNat < limit.toNat :=
      Nat.mod_lt _ hL
    set P := limit.toNat * ((total + limit.toNat - 1) / limit.toNat) with hP
    set R := (total + limit.toNat - 1) % limit.toNat with hR
    omega
  · intro q hq
    show ceilDiv total limit ≤ q
    rw [ceilDiv, if_pos h0]
    rw [Nat.div_le_iff_le_mul_add_pred hL]
    rw [Nat.mul_comm] at hq
    set Q := limit.toNat * q with hQ
    omega
  · exact decide_eq_true_iff
  · exact decide_eq_true_iff

theorem countP_fibers_le (keys : List String) (q : Nat) (f : String → List Offer)
    (hnd : keys.Nodup)
    (hf : ∀ t ∈ keys, ∀ o ∈ f t, o.sellerId = t)
    (hq : ∀ t ∈ keys, (f t).length ≤ q) (s : String) :
    ((keys.map f).flatten).countP (fun o => decide (o.sellerId = s)) ≤ q := by
  induction keys with
  | nil => simp
  | cons t keys ih =>
    rw [List.map_cons, List.flatten_cons, List.countP_append]
    rcases List.nodup_cons.mp hnd with ⟨hts, hnd2⟩
    by_cases hstart : t = s
    · have htail : ((keys.map f).flatten).countP (fun o => decide (o.sellerId = s)) = 0 := by
        rw [List.countP_eq_zero]
        intro o ho
        rcases List.mem_flatten.mp ho with ⟨g, hg, hog⟩
        rcases List.mem_map.mp hg with ⟨u, hu, rfl⟩
        have hou := hf u (List.mem_cons_of_mem t hu) o hog
        simp only [decide_eq_true_eq]
        intro he
        have hut : u = t := by rw [← hou, he, hstart]
        exact hts (hut ▸ hu)
      have hhead : (f t).countP (fun o => decide (o.sellerId = s)) ≤ q :=
        le_trans (List.countP_le_length _) (hq t (List.mem_cons_self t keys))
      omega
    · have hhead : (f t).countP (fun o => decide (o.sellerId = s)) = 0 := by
        rw [List.countP_eq_zero]
        intro o ho
        have := hf t (List.mem_cons_self t keys) o ho
        simp only [decide_eq_true_eq]
        intro he
        exact hstart (by rw [← this, he])
      have htail := ih hnd2
        (fun u hu => hf u (List.mem_cons_of_mem t hu))
        (fun u hu => hq u (List.mem_cons_of_mem t hu))
      omega

theorem sellerGroups_mem (l : List Offer) (g : String × List Offer)
    (hg : g ∈ sellerGroups l) :
    g.2 = l.filter (fun o => decide (o.sellerId = g.1)) ∧
      g.1 ∈ dedupFirst (l.map (fun o => o.sellerId)) := by
  rcases List.mem_map.mp hg with ⟨s, hs, rfl⟩
  exact ⟨rfl, hs⟩

theorem sellerGroups_flatten_perm (l : List Offer) :
    ((sellerGroups l).map (fun g => g.2)).flatten.Perm l := by
  have h : (sellerGroups l).map (fun g => g.2)
      = (dedupFirst (l.map (fun o => o.sellerId))).map
          (fun s => l.filter (fun o => decide (o.sellerId = s))) := by
    rw [sellerGroups, List.map_map]
    rfl
  rw [h]
  apply fiber_flatten_perm
  · exact nodup_dedupFirst _
  · intro o ho
    rw [mem_dedupFirst]
    exact List.mem_map_of_mem (fun o => o.sellerId) ho

theorem keyedGroups_some (l : List Offer) (seed : Nat)
    (h : ∀ o ∈ l, (toIntSuffix7 o.sellerId).isSome) :
    keyedGroups l seed = some ((sellerGroups l).map (keyAnnot seed)) := by
  apply mapM_eq_map
  intro g hg
  rcases sellerGroups_mem l g hg with ⟨_, hkey⟩
  rcases List.mem_map.mp ((mem_dedupFirst _ _).mp hkey) with ⟨o, hol, hos⟩
  have := h o hol
  rw [hos] at this
  rcases Option.isSome_iff_exists.mp this with ⟨n, hn⟩
  rw [keyAnnot, sellerOrderKey, hn]
  simp [Option.getD]

theorem keyedGroups_groups (l : List Offer) (seed : Nat)
    (kgs : List (String × Nat × List Offer))
    (h : keyedGroups l seed = some kgs) :
    kgs.map (fun g => g.2.2) = (sellerGroups l).map (fun g => g.2) := by
  rw [keyedGroups] at h
  refine mapM_map_rel _ _ _ ?_ _ _ h
  intro a b hab
  rcases hka : sellerOrderKey a.1 seed with _ | k
  · rw [hka] at hab; simp at hab
  · rw [hka] at hab
    simp only [Option.map_some', Option.some.injEq] at hab
    rw [← hab]

theorem keyedGroups_keys (l : List Offer) (seed : Nat)
    (kgs : List (String × Nat × List Offer))
    (h : keyedGroups l seed = some kgs) :
    kgs.map (fun g => g.1) = (sellerGroups l).map (fun g => g.1) := by
  rw [keyedGroups] at h
  refine mapM_map_rel _ _ _ ?_ _ _ h
  intro a b hab
  rcases hka : sellerOrderKey a.1 seed with _ | k
  · rw [hka] at hab; simp at hab
  · rw [hka] at hab
    simp only [Option.map_some', Option.some.injEq] at hab
    rw [← hab]

theorem trueSequence_perm (db : List Offer) (cat : String) (seed : Nat)
    (seq : List Offer) (h : trueSequence db cat seed = some seq) :
    seq.Perm (matched db cat) := by
  rw [trueSequence] at h
  rcases hkg : keyedGroups (List.insertionSort ratingDateLE (matched db cat)) seed
    with _ | kgs
  · rw [hkg] at h; simp at h
  · rw [hkg] at h
    simp only [Option.map_some', Option.some.injEq] at h
    subst h
    refine (interleave_perm_flatten _).trans ?_
    have hsorted : (List.insertionSort groupKeyLE kgs).Perm kgs :=
      List.perm_insertionSort _ _
    refine ((hsorted.map (fun g => g.2.2)).flatten).trans ?_
    rw [keyedGroups_groups _ _ _ hkg]
    exact (sellerGroups_flatten_perm _).trans (List.perm_insertionSort _ _)

theorem trueSequence_some (db : List Offer) (cat : String) (seed : Nat)
    (h : ∀ o ∈ matched db cat, (toIntSuffix7 o.sellerId).isSome) :
    trueSequence db cat seed
      = some (interleave ((List.insertionSort groupKeyLE
          ((sellerGroups (List.insertionSort ratingDateLE (matched db cat))).map
            (keyAnnot seed))).map (fun g => g.2.2))) := by
  have hm : ∀ o ∈ List.insertionSort ratingDateLE (matched db cat),
      (toIntSuffix7 o.sellerId).isSome := by
    intro o ho
    exact h o ((List.perm_insertionSort ratingDateLE (matched db cat)).mem_iff.mp ho)
  rw [trueSequence, keyedGroups_some _ _ hm]
  rfl

theorem flatMap_eq_flatten_map {α β : Type} (f : α → List β) (l : List α) :
    l.flatMap f = (l.map f).flatten := rfl

theorem hashAnnotated_map_fst (db : List Offer) (cat : String) (seed : Nat)
    (ann : List (Offer × Nat)) (h : hashAnnotated db cat seed = some ann) :
    ann.map Prod.fst = matched db cat := by
  rw [hashAnnotated] at h
  have h2 := mapM_map_rel
    (fun o : Offer => (sellerHash o.sellerId seed).map (fun b => (o, b)))
    Prod.fst id ?_ _ _ h
  · rw [List.map_id] at h2; exact h2
  · intro a b hab
    rcases hsa : sellerHash a.sellerId seed with _ | k
    · simp only [hsa, Option.map_none'] at hab; exact absurd hab (by simp)
    · simp only [hsa, Option.map_some', Option.some.injEq] at hab
      rw [← hab]
      rfl

theorem mapM_mem_rel {α β : Type} (f : α → Option β) :
    ∀ (l : List α) (out : List β), l.mapM f = some out →
      ∀ b ∈ out, ∃ a ∈ l, f a = some b := by
  intro l
  induction l with
  | nil =>
    intro out h b hb
    injection h with h2
    rw [← h2] at hb
    simp at hb
  | cons a t ih =>
    intro out h b hb
    rw [List.mapM_cons] at h
    rcases hfa : f a with _ | b0
    · rw [hfa] at h; simp at h
    · rcases hmt : t.mapM f with _ | bt
      · rw [hfa, hmt] at h; simp at h
      · rw [hfa, hmt] at h
        injection h with h2
        rw [← h2] at hb
        rcases List.mem_cons.mp hb with rfl | hb2
        · exact ⟨a, List.mem_cons_self a t, hfa⟩
        · rcases ih bt hmt b hb2 with ⟨a2, ha2, hfa2⟩
          exact ⟨a2, List.mem_cons_of_mem a ha2, hfa2⟩

theorem hashAnnotated_snd (db : List Offer) (cat : String) (seed : Nat)
    (ann : List (Offer × Nat)) (h : hashAnnotated db cat seed = some ann) :
    ∀ p ∈ ann, sellerHash p.1.sellerId seed = some p.2 := by
  rw [hashAnnotated] at h
  intro p hp
  rcases mapM_mem_rel _ _ _ h p hp with ⟨o, _, hfo⟩
  rcases hso : sellerHash o.sellerId seed with _ | k
  · rw [hso] at hfo; simp at hfo
  · rw [hso] at hfo
    simp only [Option.map_some', Option.some.injEq] at hfo
    rw [← hfo, hso]

theorem hashRR_shape (db : List Offer) (cat : String) (page limit0 : Int)
    (rs : Option Nat) (now : Nat) (r : StrategyResult)
    (hp : 1 ≤ page) (hl : 1 ≤ limit0)
    (h : getOffersHashRoundRobin db cat page limit0 rs now = some r) :
    ∃ ann, hashAnnotated db cat (seedOf rs now) = some ann ∧
      r.offers = (((List.insertionSort hashSortLE ann).map Prod.fst).drop
          ((page - 1) * limit0).toNat).take limit0.toNat ∧
      ((List.insertionSort hashSortLE ann).map Prod.fst).length
        = countDocuments db cat ∧
      r.pagination = mkPagination page limit0 (countDocuments db cat) ∧
      r.seed = some (seedOf rs now) := by
  rw [getOffersHashRoundRobin] at h
  have hl0 : ¬ limit0 = 0 := by omega
  have hskip : ¬ ((page - 1) * limit0 < 0 ∨ limit0 ≤ 0) := by
    push_neg
    exact ⟨mul_nonneg (by omega) (by omega), by omega⟩
  simp only [hl0, if_false] at h
  rw [if_neg hskip] at h
  rcases hha : hashAnnotated db cat (seedOf rs now) with _ | ann
  · rw [hha] at h; simp at h
  · rw [hha] at h
    simp only [Option.map_some', Option.some.injEq] at h
    subst h
    refine ⟨ann, rfl, rfl, ?_, rfl, rfl⟩
    rw [List.length_map, (List.perm_insertionSort hashSortLE ann).length_eq,
      ← List.length_map ann Prod.fst, hashAnnotated_map_fst db cat _ ann hha]
    rfl

theorem trueRR_shape (db : List Offer) (cat : String) (page limit0 : Int)
    (rs : Option Nat) (now : Nat) (r : StrategyResult)
    (hp : 1 ≤ page) (hl : 1 ≤ limit0)
    (h : getOffersTrueRoundRobin db cat page limit0 rs now = some r) :
    ∃ seq, trueSequence db cat (seedOf rs now) = some seq ∧
      seq.length = countDocuments db cat ∧
      r.offers = (seq.drop ((page - 1) * limit0).toNat).take limit0.toNat ∧
      r.pagination = mkPagination page limit0 (countDocuments db cat) ∧
      r.seed = some (seedOf rs now) := by
  rw [getOffersTrueRoundRobin] at h
  have hl0 : ¬ limit0 = 0 := by omega
  simp only [hl0, if_false] at h
  rcases hts : trueSequence db cat (seedOf rs now) with _ | seq
  · rw [hts] at h; simp at h
  · rw [hts] at h
    simp only [Option.map_some', Option.some.injEq] at h
    subst h
    refine ⟨seq, rfl, (trueSequence_perm _ _ _ _ hts).length_eq, ?_, rfl, rfl⟩
    show jsSlice seq ((page - 1) * limit0) ((page - 1) * limit0 + limit0) = _
    rw [jsSlice_of_nonneg _ _ _ (mul_nonneg (by omega) (by omega)) (by omega)]

theorem quotaRR_shape (db : List Offer) (cat : String) (page limit0 : Int)
    (mp : Nat) (rand : String → ℚ)
    (hp : 1 ≤ page) (hl : 1 ≤ limit0) :
    getOffersQuotaBased db cat page limit0 mp rand = some
      { offers := ((quotaFlattened db cat mp rand).drop
            ((page - 1) * limit0).toNat).take limit0.toNat
        pagination := mkPagination page limit0 (countDocuments db cat)
        seed := none } := by
  rw [getOffersQuotaBased]
  have hl0 : ¬ limit0 = 0 := by omega
  have hskip : ¬ ((page - 1) * limit0 < 0 ∨ limit0 ≤ 0) := by
    push_neg
    exact ⟨mul_nonneg (by omega) (by omega), by omega⟩
  simp only [hl0, if_false]
  rw [if_neg hskip]

theorem weightedRR_shape (db : List Offer) (cat : String) (page limit0 : Int)
    (rand : Offer → ℚ)
    (hp : 1 ≤ page) (hl : 1 ≤ limit0) :
    getOffersWeightedRandom db cat page limit0 rand = some
      { offers := (((weightedScored db cat rand).map Prod.fst).drop
            ((page - 1) * limit0).toNat).take limit0.toNat
        pagination := mkPagination page limit0 (countDocuments db cat)
        seed := none } := by
  rw [getOffersWeightedRandom]
  have hl0 : ¬ limit0 = 0 := by omega
  have hskip : ¬ ((page - 1) * limit0 < 0 ∨ limit0 ≤ 0) := by
    push_neg
    exact ⟨mul_nonneg (by omega) (by omega), by omega⟩
  simp only [hl0, if_false]
  rw [if_neg hskip]

theorem sliceOK_of (page limit : Int) (total : Nat) (r : StrategyResult)
    (seq : List Offer) (hp : 1 ≤ page) (hl : 1 ≤ limit)
    (hlen : seq.length ≤ total)
    (hoff : r.offers = (seq.drop ((page - 1) * limit).toNat).take limit.toNat)
    (hpg : r.pagination = mkPagination page limit total) :
    SliceOK page limit total r := by
  refine ⟨hpg ▸ mkPagination_ok page limit total hl, ?_, ⟨seq, hlen, hoff⟩, ?_⟩
  · rw [hoff, List.length_take]
    exact min_le_left _ _
  · intro hoor
    rw [hoff, List.drop_eq_nil_of_le (by omega), List.take_nil]

theorem quotaFlattened_length_le (db : List Offer) (cat : String)
    (mp : Nat) (rand : String → ℚ) :
    (quotaFlattened db cat mp rand).length ≤ countDocuments db cat := by
  rw [quotaFlattened, flatMap_eq_flatten_map]
  rw [((List.perm_insertionSort quotaRandLE _).map (fun g => g.2.2)).flatten.length_eq]
  rw [List.map_map]
  have h1 : ((fun g : String × ℚ × List Offer => g.2.2) ∘
        (fun g : String × List Offer =>
          (g.1, rand g.1, g.2.take (effectiveQuota mp))))
      = fun g : String × List Offer => g.2.take (effectiveQuota mp) := rfl
  rw [h1, List.length_flatten, List.map_map]
  have h2 : (List.length ∘ fun g : String × List Offer => g.2.take (effectiveQuota mp))
      = fun g : String × List Offer => (g.2.take (effectiveQuota mp)).length := rfl
  rw [h2]
  calc ((sellerGroups (List.insertionSort ratingDateLE (matched db cat))).map
        (fun g => (g.2.take (effectiveQuota mp)).length)).sum
      ≤ ((sellerGroups (List.insertionSort ratingDateLE (matched db cat))).map
          (fun g => g.2.length)).sum := by
        apply List.sum_le_sum
        intro g _
        show (g.2.take (effectiveQuota mp)).length ≤ g.2.length
        rw [List.length_take]
        exact min_le_right _ _
    _ = countDocuments db cat := by
        have h3 : (fun g : String × List Offer => g.2.length)
            = List.length ∘ (fun g : String × List Offer => g.2) := rfl
        rw [h3, ← List.map_map, ← List.length_flatten]
        rw [(sellerGroups_flatten_perm _).length_eq,
          (List.perm_insertionSort ratingDateLE _).length_eq]
        rfl

theorem effectiveQuota_le (mp : Nat) (h : 1 ≤ mp) : effectiveQuota mp ≤ mp := by
  rw [effectiveQuota]
  have h0 : ¬ mp = 0 := by omega
  simp only [h0, if_false]
  split
  · rw [maxMaxOffersPerSeller] at *
    omega
  · exact le_refl mp

theorem quotaFlattened_countP_le (db : List Offer) (cat : String)
    (mp : Nat) (rand : String → ℚ) (s : String) :
    (quotaFlattened db cat mp rand).countP (fun o => decide (o.sellerId = s))
      ≤ effectiveQuota mp := by
  rw [quotaFlattened, flatMap_eq_flatten_map]
  rw [(((List.perm_insertionSort quotaRandLE _).map (fun g => g.2.2)).flatten).countP_eq]
  rw [List.map_map, sellerGroups, List.map_map]
  have h1 : (((fun g : String × ℚ × List Offer => g.2.2) ∘
        (fun g : String × List Offer =>
          (g.1, rand g.1, g.2.take (effectiveQuota mp)))) ∘
        (fun s => (s, (List.insertionSort ratingDateLE (matched db cat)).filter
          (fun o => decide (o.sellerId = s)))))
      = fun t => ((List.insertionSort ratingDateLE (matched db cat)).filter
          (fun o => decide (o.sellerId = t))).take (effectiveQuota mp) := rfl
  rw [h1]
  apply countP_fibers_le
  · exact nodup_dedupFirst _
  · intro t _ o ho
    have := (List.mem_filter.mp (List.mem_of_mem_take ho)).2
    simpa using this
  · intro t _
    rw [List.length_take]
    exact min_le_left _ _

theorem abs_round4_sub_le (x : ℚ) : |round4 x - x| ≤ 1 / 20000 := by
  rw [round4]
  have h := abs_sub_round (x * 10000)
  have heq : (round (x * 10000) : ℚ) / 10000 - x
      = ((round (x * 10000) : ℚ) - x * 10000) / 10000 := by ring
  rw [heq, abs_div]
  have h10 : |(10000 : ℚ)| = 10000 := by norm_num
  rw [h10, abs_sub_comm]
  rw [div_le_div_iff₀ (by norm_num) (by norm_num)]
  linarith

theorem interleave_take_three (gs : List (String × Nat × List Offer))
    (A B C : String)
    (hperm : (gs.map (fun g => g.1)).Perm [A, B, C])
    (hsid : ∀ g ∈ gs, ∀ o ∈ g.2.2, o.sellerId = g.1)
    (hne : ∀ g ∈ gs, g.2.2 ≠ []) :
    (((interleave (gs.map (fun g => g.2.2))).take 3).map
      (fun o => o.sellerId)).Perm [A, B, C] := by
  have hlen : gs.length = 3 := by
    have h := hperm.length_eq
    simpa using h
  rcases List.length_eq_three.mp hlen with ⟨g1, g2, g3, rfl⟩
  rcases List.exists_cons_of_ne_nil (hne g1 (by simp)) with ⟨a1, t1, h1⟩
  rcases List.exists_cons_of_ne_nil (hne g2 (by simp)) with ⟨a2, t2, h2⟩
  rcases List.exists_cons_of_ne_nil (hne g3 (by simp)) with ⟨a3, t3, h3⟩
  have hml : maxGroupLen ([g1, g2, g3].map (fun g => g.2.2)) ≠ 0 := by
    have hb : g1.2.2.length ≤ maxGroupLen ([g1, g2, g3].map (fun g => g.2.2)) :=
      length_le_maxGroupLen _ _ (by simp)
    rw [h1] at hb
    simp only [List.length_cons] at hb
    omega
  obtain ⟨k, hk⟩ := Nat.exists_eq_succ_of_ne_zero hml
  have hinter : interleave ([g1, g2, g3].map (fun g => g.2.2))
      = [a1, a2, a3] ++ (List.map Nat.succ (List.range k)).flatMap
          (fun r => ([g1, g2, g3].map (fun g => g.2.2)).flatMap
            (fun g => g[r]?.toList)) := by
    rw [interleave, hk, List.range_succ_eq_map, List.flatMap_cons]
    congr 1
    simp [h1, h2, h3]
  rw [hinter]
  have h3eq : ([a1, a2, a3] : List Offer).length = 3 := rfl
  rw [← h3eq, List.take_left]
  have hs1 : a1.sellerId = g1.1 :=
    hsid g1 (by simp) a1 (by rw [h1]; exact List.mem_cons_self _ _)
  have hs2 : a2.sellerId = g2.1 :=
    hsid g2 (by simp) a2 (by rw [h2]; exact List.mem_cons_self _ _)
  have hs3 : a3.sellerId = g3.1 :=
    hsid g3 (by simp) a3 (by rw [h3]; exact List.mem_cons_self _ _)
  have hmap : [a1, a2, a3].map (fun o => o.sellerId) = [g1.1, g2.1, g3.1] := by
    simp [hs1, hs2, hs3]
  rw [hmap]
  simpa using hperm

/-! Claim theorems and their witnesses. -/

/-- C10: whenever True Round-Robin's grouping pipeline succeeds (every
matched seller id has a parsable numeric suffix; the store throws
otherwise), the fully interleaved pre-pagination sequence is a permutation
of the matched candidates — every matched listing appears exactly once —
so its length equals the independent countDocuments total reported as
pagination.total; an empty candidate set yields the empty sequence without
error. -/
theorem trueRoundRobin_interleave_permutation (db : List Offer) (cat : String)
    (seed : Nat)
    (h : ∀ o ∈ matched db cat, (toIntSuffix7 o.sellerId).isSome) :
    ∃ seq, trueSequence db cat seed = some seq ∧
      seq.Perm (matched db cat) ∧
      seq.length = countDocuments db cat ∧
      (matched db cat = [] → seq = []) := by
  obtain ⟨seq, hseq⟩ : ∃ seq, trueSequence db cat seed = some seq :=
    ⟨_, trueSequence_some db cat seed h⟩
  have hperm := trueSequence_perm db cat seed seq hseq
  refine ⟨seq, hseq, hperm, hperm.length_eq, ?_⟩
  intro hnil
  rw [hnil] at hperm
  exact hperm.eq_nil

/-- Witness for C10 at a concrete store. -/
theorem trueRoundRobin_interleave_permutation_witness :
    (∀ o ∈ matched dbTwo "RPG", (toIntSuffix7 o.sellerId).isSome) ∧
    (∃ seq, trueSequence dbTwo "RPG" 7 = some seq ∧
      seq.Perm (matched dbTwo "RPG") ∧
      seq.length = countDocuments dbTwo "RPG" ∧
      (matched dbTwo "RPG" = [] → seq = [])) :=
  ⟨by decide, trueRoundRobin_interleave_permutation dbTwo "RPG" 7 (by decide)⟩

/-- C1: True Round-Robin sorts the seller groups ascending by
(numericSuffix(sellerId) + seed) mod 1000, builds the full sequence by
rounds over the ordered groups, and paginates by a skip/limit slice of the
fully interleaved sequence; for three sellers A (5 listings), B (2), C (2)
the first 3 elements of the interleaved sequence contain exactly one
listing from each seller. -/
theorem trueRoundRobin_interleave_c1 (db : List Offer) (cat A B C : String)
    (page limit0 : Int) (randomSeed : Option Nat) (nowMs : Nat)
    (hAB : A ≠ B) (hAC : A ≠ C) (hBC : B ≠ C)
    (hcov : ∀ o ∈ matched db cat,
      o.sellerId = A ∨ o.sellerId = B ∨ o.sellerId = C)
    (hcA : (matched db cat).countP (fun o => decide (o.sellerId = A)) = 5)
    (hcB : (matched db cat).countP (fun o => decide (o.sellerId = B)) = 2)
    (hcC : (matched db cat).countP (fun o => decide (o.sellerId = C)) = 2)
    (hpA : (toIntSuffix7 A).isSome) (hpB : (toIntSuffix7 B).isSome)
    (hpC : (toIntSuffix7 C).isSome) :
    ∃ kgs seq,
      keyedGroups (List.insertionSort ratingDateLE (matched db cat))
        (seedOf randomSeed nowMs) = some kgs ∧
      (∀ g ∈ kgs,
        sellerOrderKey g.1 (seedOf randomSeed nowMs) = some g.2.1) ∧
      List.Sorted groupKeyLE (List.insertionSort groupKeyLE kgs) ∧
      trueSequence db cat (seedOf randomSeed nowMs) = some seq ∧
      seq = interleave
        ((List.insertionSort groupKeyLE kgs).map (fun g => g.2.2)) ∧
      getOffersTrueRoundRobin db cat page limit0 randomSeed nowMs = some
        { offers := jsSlice seq
            ((page - 1) * (if limit0 = 0 then defaultPageSize else limit0))
            ((page - 1) * (if limit0 = 0 then defaultPageSize else limit0)
              + (if limit0 = 0 then defaultPageSize else limit0))
          pagination := mkPagination page
            (if limit0 = 0 then defaultPageSize else limit0)
            (countDocuments db cat)
          seed := some (seedOf randomSeed nowMs) } ∧
      ((seq.take 3).map (fun o => o.sellerId)).Perm [A, B, C] := by
  have hparse : ∀ o ∈ matched db cat, (toIntSuffix7 o.sellerId).isSome := by
    intro o ho
    rcases hcov o ho with hs | hs | hs <;> rw [hs] <;> assumption
  have hmm := List.perm_insertionSort ratingDateLE (matched db cat)
  have hparse2 : ∀ o ∈ List.insertionSort ratingDateLE (matched db cat),
      (toIntSuffix7 o.sellerId).isSome := by
    intro o ho
    exact hparse o (hmm.mem_iff.mp ho)
  have hkgs := keyedGroups_some
    (List.insertionSort ratingDateLE (matched db cat)) (seedOf randomSeed nowMs)
    hparse2
  have hts := trueSequence_some db cat (seedOf randomSeed nowMs) hparse
  have hkey : ∀ s, s ∈ dedupFirst ((List.insertionSort ratingDateLE
      (matched db cat)).map (fun o => o.sellerId)) →
      (toIntSuffix7 s).isSome := by
    intro s hs
    rcases List.mem_map.mp ((mem_dedupFirst _ _).mp hs) with ⟨o, ho, rfl⟩
    exact hparse2 o ho
  refine ⟨(sellerGroups (List.insertionSort ratingDateLE (matched db cat))).map
      (keyAnnot (seedOf randomSeed nowMs)), _, hkgs, ?_, ?_, hts, rfl, ?_, ?_⟩
  · intro g hg
    rcases List.mem_map.mp hg with ⟨g0, hg0, rfl⟩
    have hk0 := (sellerGroups_mem _ _ hg0).2
    rcases Option.isSome_iff_exists.mp (hkey g0.1 hk0) with ⟨n, hn⟩
    show sellerOrderKey g0.1 (seedOf randomSeed nowMs) = _
    rw [sellerOrderKey, hn, keyAnnot, hn]
    rfl
  · exact List.sorted_insertionSort groupKeyLE _
  · rw [getOffersTrueRoundRobin]
    simp only [hts, Option.map_some']
  · -- the round-0 property
    apply interleave_take_three _ A B C
    · -- seller ids of sorted groups are a permutation of [A, B, C]
      have hp1 : ((List.insertionSort groupKeyLE
          ((sellerGroups (List.insertionSort ratingDateLE (matched db cat))).map
            (keyAnnot (seedOf randomSeed nowMs)))).map (fun g => g.1)).Perm
          (((sellerGroups (List.insertionSort ratingDateLE (matched db cat))).map
            (keyAnnot (seedOf randomSeed nowMs))).map (fun g => g.1)) :=
        (List.perm_insertionSort _ _).map _
      have hfst : ((sellerGroups (List.insertionSort ratingDateLE
          (matched db cat))).map
            (keyAnnot (seedOf randomSeed nowMs))).map (fun g => g.1)
          = dedupFirst ((List.insertionSort ratingDateLE (matched db cat)).map
              (fun o => o.sellerId)) := by
        rw [List.map_map, sellerGroups, List.map_map]
        exact List.map_id _
      have hABC : (dedupFirst ((List.insertionSort ratingDateLE
          (matched db cat)).map (fun o => o.sellerId))).Perm [A, B, C] := by
        have hnd3 : ([A, B, C] : List String).Nodup := by
          simp [hAB, hAC, hBC]
        rw [List.perm_ext_iff_of_nodup (nodup_dedupFirst _) hnd3]
        intro x
        rw [mem_dedupFirst]
        constructor
        · intro hx
          rcases List.mem_map.mp hx with ⟨o, ho, rfl⟩
          rcases hcov o (hmm.mem_iff.mp ho) with hs | hs | hs <;> simp [hs]
        · intro hx
          have hcnt : ∀ y : String,
              (List.insertionSort ratingDateLE (matched db cat)).countP
                (fun o => decide (o.sellerId = y))
              = (matched db cat).countP (fun o => decide (o.sellerId = y)) :=
            fun y => hmm.countP_eq _
          have hx3 : x = A ∨ x = B ∨ x = C := by simpa using hx
          have hpos : 0 < (List.insertionSort ratingDateLE
              (matched db cat)).countP (fun o => decide (o.sellerId = x)) := by
            rcases hx3 with rfl | rfl | rfl <;> rw [hcnt] <;> omega
          rcases List.countP_pos_iff.mp hpos with ⟨o, ho, hox⟩
          refine List.mem_map.mpr ⟨o, ho, ?_⟩
          simpa using hox
      exact hp1.trans (hfst ▸ hABC)
    · intro g hg o ho
      have hg2 : g ∈ (sellerGroups (List.insertionSort ratingDateLE
          (matched db cat))).map (keyAnnot (seedOf randomSeed nowMs)) :=
        (List.perm_insertionSort groupKeyLE _).mem_iff.mp hg
      rcases List.mem_map.mp hg2 with ⟨g0, hg0, rfl⟩
      have hfil := (sellerGroups_mem _ _ hg0).1
      have ho2 : o ∈ g0.2 := ho
      rw [hfil] at ho2
      have := (List.mem_filter.mp ho2).2
      simpa using this
    · intro g hg
      have hg2 : g ∈ (sellerGroups (List.insertionSort ratingDateLE
          (matched db cat))).map (keyAnnot (seedOf randomSeed nowMs)) :=
        (List.perm_insertionSort groupKeyLE _).mem_iff.mp hg
      rcases List.mem_map.mp hg2 with ⟨g0, hg0, rfl⟩
      have hfil := (sellerGroups_mem _ _ hg0).1
      have hk0 := (sellerGroups_mem _ _ hg0).2
      rcases List.mem_map.mp ((mem_dedupFirst _ _).mp hk0) with ⟨o, ho, hos⟩
      show g0.2 ≠ []
      rw [hfil]
      have hcnt0 : 0 < (List.insertionSort ratingDateLE (matched db cat)).countP
          (fun o => decide (o.sellerId = g0.1)) :=
        List.countP_pos_iff.mpr ⟨o, ho, by simp [hos]⟩
      rw [List.countP_eq_length_filter] at hcnt0
      intro hnil
      rw [hnil] at hcnt0
      simp at hcnt0

/-- Witness for C1 at the concrete 5/2/2 store. -/
theorem trueRoundRobin_interleave_c1_witness :
    ("seller_1" ≠ "seller_2") ∧
    ((matched dbABC "RPG").countP
      (fun o => decide (o.sellerId = "seller_1")) = 5) ∧
    (∃ kgs seq,
      keyedGroups (List.insertionSort ratingDateLE (matched dbABC "RPG"))
        (seedOf (some 5) 0) = some kgs ∧
      (∀ g ∈ kgs, sellerOrderKey g.1 (seedOf (some 5) 0) = some g.2.1) ∧
      List.Sorted groupKeyLE (List.insertionSort groupKeyLE kgs) ∧
      trueSequence dbABC "RPG" (seedOf (some 5) 0) = some seq ∧
      seq = interleave
        ((List.insertionSort groupKeyLE kgs).map (fun g => g.2.2)) ∧
      getOffersTrueRoundRobin dbABC "RPG" 1 3 (some 5) 0 = some
        { offers := jsSlice seq ((1 - 1) * (if (3:Int) = 0 then defaultPageSize else 3))
            ((1 - 1) * (if (3:Int) = 0 then defaultPageSize else 3)
              + (if (3:Int) = 0 then defaultPageSize else 3))
          pagination := mkPagination 1 (if (3:Int) = 0 then defaultPageSize else 3)
            (countDocuments dbABC "RPG")
          seed := some (seedOf (some 5) 0) } ∧
      ((seq.take 3).map (fun o => o.sellerId)).Perm
        ["seller_1", "seller_2", "seller_3"]) :=
  ⟨by decide, by decide,
    trueRoundRobin_interleave_c1 dbABC "RPG" "seller_1" "seller_2" "seller_3"
      1 3 (some 5) 0 (by decide) (by decide) (by decide) (by decide)
      (by decide) (by decide) (by decide) (by decide) (by decide) (by decide)⟩

/-- C4: for every strategy and every valid page and pageSize, the returned
result is the `[skip, skip+pageSize)` slice (skip = (page-1)*pageSize) of a
pre-pagination sequence no longer than the independent countDocuments
total, its length is at most pageSize, an out-of-range page yields an empty
slice rather than an error, and the pagination block satisfies
totalPages = ceil(total/pageSize), hasNext ↔ page*pageSize < total,
hasPrev ↔ page > 1 with total the independent count. -/
theorem pagination_contract (db : List Offer) (cat : String)
    (page limit0 : Int) (rs : Option Nat) (now : Nat) (mp : Nat)
    (randq : String → ℚ) (randw : Offer → ℚ)
    (hp : 1 ≤ page) (hl : 1 ≤ limit0) :
    (∀ r, getOffersHashRoundRobin db cat page limit0 rs now = some r →
      SliceOK page limit0 (countDocuments db cat) r) ∧
    (∀ r, getOffersTrueRoundRobin db cat page limit0 rs now = some r →
      SliceOK page limit0 (countDocuments db cat) r) ∧
    (∀ r, getOffersQuotaBased db cat page limit0 mp randq = some r →
      SliceOK page limit0 (countDocuments db cat) r) ∧
    (∀ r, getOffersWeightedRandom db cat page limit0 randw = some r →
      SliceOK page limit0 (countDocuments db cat) r) := by
  refine ⟨?_, ?_, ?_, ?_⟩
  · intro r hr
    rcases hashRR_shape db cat page limit0 rs now r hp hl hr with
      ⟨ann, _, hoff, hlen, hpag, _⟩
    exact sliceOK_of _ _ _ _ _ hp hl (le_of_eq hlen) hoff hpag
  · intro r hr
    rcases trueRR_shape db cat page limit0 rs now r hp hl hr with
      ⟨seq, _, hlen, hoff, hpag, _⟩
    exact sliceOK_of _ _ _ _ _ hp hl (le_of_eq hlen) hoff hpag
  · intro r hr
    rw [quotaRR_shape db cat page limit0 mp randq hp hl] at hr
    injection hr with hr2
    refine sliceOK_of _ _ _ _ (quotaFlattened db cat mp randq) hp hl
      (quotaFlattened_length_le _ _ _ _) ?_ ?_
    · rw [← hr2]
    · rw [← hr2]
  · intro r hr
    rw [weightedRR_shape db cat page limit0 randw hp hl] at hr
    injection hr with hr2
    have hwlen : ((weightedScored db cat randw).map Prod.fst).length
        = countDocuments db cat := by
      rw [List.length_map, weightedScored,
        (List.perm_insertionSort weightedGE _).length_eq, List.length_map]
      rfl
    refine sliceOK_of _ _ _ _ ((weightedScored db cat randw).map Prod.fst)
      hp hl (le_of_eq hwlen) ?_ ?_
    · rw [← hr2]
    · rw [← hr2]

/-- Witness for C4 at a concrete store and request. -/
theorem pagination_contract_witness :
    (1 : Int) ≤ 1 ∧ (1 : Int) ≤ 2 ∧
    ((∀ r, getOffersHashRoundRobin dbTwo "RPG" 1 2 (some 7) 0 = some r →
      SliceOK 1 2 (countDocuments dbTwo "RPG") r) ∧
    (∀ r, getOffersTrueRoundRobin dbTwo "RPG" 1 2 (some 7) 0 = some r →
      SliceOK 1 2 (countDocuments dbTwo "RPG") r) ∧
    (∀ r, getOffersQuotaBased dbTwo "RPG" 1 2 2 (fun _ => (0 : ℚ)) = some r →
      SliceOK 1 2 (countDocuments dbTwo "RPG") r) ∧
    (∀ r, getOffersWeightedRandom dbTwo "RPG" 1 2 (fun _ => (0 : ℚ)) = some r →
      SliceOK 1 2 (countDocuments dbTwo "RPG") r)) :=
  ⟨by decide, by decide,
    pagination_contract dbTwo "RPG" 1 2 (some 7) 0 2 (fun _ => (0 : ℚ))
      (fun _ => (0 : ℚ)) (by decide) (by decide)⟩

/-- C2 counterexample: with maxPerSeller = 0 the quota pipeline silently
substitutes the default quota 2 (JavaScript `||`), so a store holding one
listing by seller_1 contributes 1 > 0 listings to the flattened
pre-pagination sequence, contradicting the claim's bound for every
maxPerSeller value. -/
theorem quotaBased_cap_counterexample :
    ¬ ((quotaFlattened dbOne "RPG" 0 (fun _ => (0 : ℚ))).countP
        (fun o => decide (o.sellerId = "seller_1")) ≤ 0) := by decide

/-- C2 amended: for every maxPerSeller ≥ 1, every input distribution,
every seller and every realisation of the per-group random keys, the
flattened pre-pagination sequence of the Quota-Based strategy contains at
most maxPerSeller listings of that seller (the effective quota is
additionally clamped to the configured maximum, which only lowers it). -/
theorem quotaBased_cap (db : List Offer) (cat : String) (mp : Nat)
    (rand : String → ℚ) (s : String) (h : 1 ≤ mp) :
    (quotaFlattened db cat mp rand).countP
      (fun o => decide (o.sellerId = s)) ≤ mp :=
  le_trans (quotaFlattened_countP_le db cat mp rand s) (effectiveQuota_le mp h)

/-- Witness for C2's amended bound at a concrete store. -/
theorem quotaBased_cap_witness :
    1 ≤ 2 ∧
    (quotaFlattened dbTwo "RPG" 2 (fun _ => (0 : ℚ))).countP
      (fun o => decide (o.sellerId = "seller_1")) ≤ 2 :=
  ⟨by decide, quotaBased_cap dbTwo "RPG" 2 (fun _ => (0 : ℚ)) "seller_1" (by decide)⟩

/-- C3 counterexample: "sellerXYZw" is 10 characters long and has no numeric
suffix; the claim says the fallback constant 1 applies, giving bucket
(1+seed)*(seed+37) mod 10000, but the $cond only guards the length, so
$toInt throws and the aggregation fails (none). -/
theorem hashRoundRobin_fallback_counterexample :
    sellerHash "sellerXYZw" 0 = none ∧
    sellerHash "sellerXYZw" 0 ≠ some ((1 + 0) * (0 + 37) % 10000) ∧
    getOffersHashRoundRobin [mkOffer "x" "RPG" "sellerXYZw" 1 0] "RPG"
      1 10 none 0 = none := by decide

/-- C3 amended: the fallback constant 1 applies exactly to seller ids
shorter than 8 characters; an id of length ≥ 8 without a numeric suffix
makes the aggregation throw; otherwise the bucket is
(numericSuffix + seed) * (seed + 37) mod 10000; and every successful call
orders the bucket-annotated candidates by (bucket ascending, rating
descending, createdAt descending) before the skip/limit slice. -/
theorem hashRoundRobin_bucket_order (s : String) (seed : Nat)
    (db : List Offer) (cat : String) (page limit0 : Int) (rs : Option Nat)
    (now : Nat) (hp : 1 ≤ page) (hl : 1 ≤ limit0) :
    (s.length < 8 →
      sellerHash s seed = some ((1 + seed) * (seed + 37) % 10000)) ∧
    (8 ≤ s.length → toIntSuffix7 s = none → sellerHash s seed = none) ∧
    (∀ n, 8 ≤ s.length → toIntSuffix7 s = some n →
      sellerHash s seed = some ((n + seed) * (seed + 37) % 10000)) ∧
    (∀ r, getOffersHashRoundRobin db cat page limit0 rs now = some r →
      ∃ ann, hashAnnotated db cat (seedOf rs now) = some ann ∧
        (∀ p ∈ ann, sellerHash p.1.sellerId (seedOf rs now) = some p.2) ∧
        ann.map Prod.fst = matched db cat ∧
        List.Sorted hashSortLE (List.insertionSort hashSortLE ann) ∧
        r.offers = (((List.insertionSort hashSortLE ann).map Prod.fst).drop
          ((page - 1) * limit0).toNat).take limit0.toNat) := by
  refine ⟨?_, ?_, ?_, ?_⟩
  · intro hshort
    rw [sellerHash, if_neg (by omega)]
  · intro hlong hnone
    rw [sellerHash, if_pos (by omega), hnone]
    rfl
  · intro n hlong hsome
    rw [sellerHash, if_pos (by omega), hsome]
    rfl
  · intro r hr
    rcases hashRR_shape db cat page limit0 rs now r hp hl hr with
      ⟨ann, hann, hoff, _, _, _⟩
    exact ⟨ann, hann, hashAnnotated_snd db cat _ ann hann,
      hashAnnotated_map_fst db cat _ ann hann,
      List.sorted_insertionSort hashSortLE ann, hoff⟩

/-- Witness for C3's amended statement at a concrete store. -/
theorem hashRoundRobin_bucket_order_witness :
    (1 : Int) ≤ 1 ∧ (1 : Int) ≤ 2 ∧
    ((("seller" : String).length < 8 →
      sellerHash "seller" 3 = some ((1 + 3) * (3 + 37) % 10000)) ∧
    (8 ≤ ("seller" : String).length → toIntSuffix7 "seller" = none →
      sellerHash "seller" 3 = none) ∧
    (∀ n, 8 ≤ ("seller" : String).length → toIntSuffix7 "seller" = some n →
      sellerHash "seller" 3 = some ((n + 3) * (3 + 37) % 10000)) ∧
    (∀ r, getOffersHashRoundRobin dbTwo "RPG" 1 2 (some 7) 0 = some r →
      ∃ ann, hashAnnotated dbTwo "RPG" (seedOf (some 7) 0) = some ann ∧
        (∀ p ∈ ann, sellerHash p.1.sellerId (seedOf (some 7) 0) = some p.2) ∧
        ann.map Prod.fst = matched dbTwo "RPG" ∧
        List.Sorted hashSortLE (List.insertionSort hashSortLE ann) ∧
        r.offers = (((List.insertionSort hashSortLE ann).map Prod.fst).drop
          (((1 : Int) - 1) * 2).toNat).take (2 : Int).toNat)) :=
  ⟨by decide, by decide,
    hashRoundRobin_bucket_order "seller" 3 dbTwo "RPG" 1 2 (some 7) 0
      (by decide) (by decide)⟩

/-- C5 counterexample: an explicit seed of 0 is falsy for JavaScript `||`,
so it is not used unchanged: at time 120000 ms the strategies fall back to
the time-derived seed 120000/60000 = 2 instead of the requested 0. -/
theorem seed_zero_counterexample :
    seedOf (some 0) 120000 = 2 ∧ seedOf (some 0) 120000 ≠ 0 ∧
    (getOffersHashRoundRobin ([] : List Offer) "RPG" 1 10 (some 0) 120000).map
      (fun r => r.seed) = some (some 2) := by decide

/-- C5 amended: a nonzero explicit seed is used unchanged; an explicit seed
of 0 (like an absent one) falls back to floor(now / windowMillis) with
windowMillis = 60000 ms, so two calls in the same window share a seed, and
the strategy reports the seed it used. -/
theorem seed_selection (s nowMs : Nat) (hs : s ≠ 0) :
    seedOf (some s) nowMs = s ∧
    seedOf none nowMs = nowMs / seedIntervalMs ∧
    seedOf (some 0) nowMs = nowMs / seedIntervalMs ∧
    seedIntervalMs = 60000 ∧
    (∀ n2, nowMs / seedIntervalMs = n2 / seedIntervalMs →
      seedOf none nowMs = seedOf none n2) ∧
    (∀ (db : List Offer) (cat : String) (page limit0 : Int) r,
      getOffersTrueRoundRobin db cat page limit0 (some s) nowMs = some r →
      r.seed = some s) := by
  refine ⟨by simp [seedOf, hs], rfl, by simp [seedOf], rfl, ?_, ?_⟩
  · intro n2 hwin
    simp [seedOf, hwin]
  · intro db cat page limit0 r hr
    rw [getOffersTrueRoundRobin] at hr
    rcases hts : trueSequence db cat (seedOf (some s) nowMs) with _ | seq
    · rw [hts] at hr; simp at hr
    · rw [hts] at hr
      simp only [Option.map_some', Option.some.injEq] at hr
      rw [← hr]
      show some (seedOf (some s) nowMs) = some s
      simp [seedOf, hs]

/-- Witness for C5's amended statement. -/
theorem seed_selection_witness :
    (42 : Nat) ≠ 0 ∧
    (seedOf (some 42) 130000 = 42 ∧
    seedOf none 130000 = 130000 / seedIntervalMs ∧
    seedOf (some 0) 130000 = 130000 / seedIntervalMs ∧
    seedIntervalMs = 60000 ∧
    (∀ n2, 130000 / seedIntervalMs = n2 / seedIntervalMs →
      seedOf none 130000 = seedOf none n2) ∧
    (∀ (db : List Offer) (cat : String) (page limit0 : Int) r,
      getOffersTrueRoundRobin db cat page limit0 (some 42) 130000 = some r →
      r.seed = some 42)) :=
  ⟨by decide, seed_selection 42 130000 (by decide)⟩

/-- C6: Weighted Random annotates each matched candidate with
weightedScore = r*100 + 100/(sellerOfferCount+1), where sellerOfferCount
counts the seller's listings in the same category over the collection and
r is the per-document uniform draw, orders candidates by weightedScore
descending, and slices with skip/limit. -/
theorem weightedRandom_score_order (db : List Offer) (cat : String)
    (rand : Offer → ℚ) (page limit0 : Int)
    (hp : 1 ≤ page) (hl : 1 ≤ limit0) :
    List.Sorted weightedGE (weightedScored db cat rand) ∧
    (weightedScored db cat rand).Perm ((matched db cat).map
      (fun o => (o, rand o * 100 + 100 / ((sellerCatCount db o : ℚ) + 1)))) ∧
    (∀ o ∈ matched db cat, sellerCatCount db o
      = (db.filter (fun x => decide (x.sellerId = o.sellerId)
          && decide (x.gameCategory = cat))).length) ∧
    getOffersWeightedRandom db cat page limit0 rand = some
      { offers := (((weightedScored db cat rand).map Prod.fst).drop
          ((page - 1) * limit0).toNat).take limit0.toNat
        pagination := mkPagination page limit0 (countDocuments db cat)
        seed := none } := by
  refine ⟨List.sorted_insertionSort weightedGE _,
    List.perm_insertionSort weightedGE _, ?_,
    weightedRR_shape db cat page limit0 rand hp hl⟩
  intro o ho
  have hocat : o.gameCategory = cat := by
    have := (List.mem_filter.mp ho).2
    simpa using this
  rw [sellerCatCount, hocat]

/-- Witness for C6 at a concrete store. -/
theorem weightedRandom_score_order_witness :
    (1 : Int) ≤ 1 ∧ (1 : Int) ≤ 2 ∧
    (List.Sorted weightedGE (weightedScored dbTwo "RPG" (fun _ => (0 : ℚ))) ∧
    (weightedScored dbTwo "RPG" (fun _ => (0 : ℚ))).Perm
      ((matched dbTwo "RPG").map (fun o => (o, (fun _ : Offer => (0 : ℚ)) o * 100
        + 100 / ((sellerCatCount dbTwo o : ℚ) + 1)))) ∧
    (∀ o ∈ matched dbTwo "RPG", sellerCatCount dbTwo o
      = (dbTwo.filter (fun x => decide (x.sellerId = o.sellerId)
          && decide (x.gameCategory = "RPG"))).length) ∧
    getOffersWeightedRandom dbTwo "RPG" 1 2 (fun _ => (0 : ℚ)) = some
      { offers := (((weightedScored dbTwo "RPG" (fun _ => (0 : ℚ))).map
          Prod.fst).drop (((1 : Int) - 1) * 2).toNat).take (2 : Int).toNat
        pagination := mkPagination 1 2 (countDocuments dbTwo "RPG")
        seed := none }) :=
  ⟨by decide, by decide,
    weightedRandom_score_order dbTwo "RPG" (fun _ => (0 : ℚ)) 1 2
      (by decide) (by decide)⟩

/-- C7 counterexample: a request with the negative page number -2 is not
rejected: True Round-Robin happily returns 2 listings (JavaScript slice
reinterprets the negative skip -6 relative to the end of the 6-element
sequence), so no InvalidRequest error occurs before the store is touched. -/
theorem negative_page_counterexample :
    (getOffersTrueRoundRobin dbSix "RPG" (-2) 2 (some 5) 0).map
      (fun r => r.offers.length) = some 2 ∧
    (getOffersTrueRoundRobin dbSix "RPG" (-2) 2 (some 5) 0).isSome = true := by
  decide

/-- C7 amended: negative page numbers are not validated anywhere: True
Round-Robin processes them, reinterpreting the negative skip with
JavaScript slice semantics over the interleaved sequence (possibly
returning listings), while Hash Round-Robin forwards the negative $skip to
the store, which fails there — a store error, not a pre-store
InvalidRequest. -/
theorem negative_page_not_rejected (db : List Offer) (cat : String)
    (page limit0 : Int) (rs : Option Nat) (now : Nat)
    (hpneg : page < 0) (hl : 0 < limit0)
    (hparse : ∀ o ∈ matched db cat, (toIntSuffix7 o.sellerId).isSome) :
    (∃ r, getOffersTrueRoundRobin db cat page limit0 rs now = some r ∧
      ∃ seq, trueSequence db cat (seedOf rs now) = some seq ∧
        r.offers = jsSlice seq ((page - 1) * limit0)
          ((page - 1) * limit0 + limit0)) ∧
    getOffersHashRoundRobin db cat page limit0 rs now = none := by
  have hl0 : ¬ limit0 = 0 := by omega
  constructor
  · have hts := trueSequence_some db cat (seedOf rs now) hparse
    have hcall : getOffersTrueRoundRobin db cat page limit0 rs now = some
        { offers :=
            jsSlice
              (interleave ((List.insertionSort groupKeyLE
                ((sellerGroups (List.insertionSort ratingDateLE
                  (matched db cat))).map
                  (keyAnnot (seedOf rs now)))).map (fun g => g.2.2)))
              ((page - 1) * limit0) ((page - 1) * limit0 + limit0)
          pagination := mkPagination page limit0 (countDocuments db cat)
          seed := some (seedOf rs now) } := by
      rw [getOffersTrueRoundRobin]
      simp only [hts, Option.map_some', hl0, if_false]
    exact ⟨_, hcall, _, hts, rfl⟩
  · have hcond : ((page - 1) * limit0 < 0 ∨ limit0 ≤ 0) :=
      Or.inl (mul_neg_of_neg_of_pos (by omega) hl)
    rw [getOffersHashRoundRobin]
    simp only [hl0, if_false]
    rw [if_pos hcond]

/-- Witness for C7's amended statement at a concrete store. -/
theorem negative_page_not_rejected_witness :
    (-2 : Int) < 0 ∧ (0 : Int) < 2 ∧
    ((∃ r, getOffersTrueRoundRobin dbSix "RPG" (-2) 2 (some 5) 0 = some r ∧
      ∃ seq, trueSequence dbSix "RPG" (seedOf (some 5) 0) = some seq ∧
        r.offers = jsSlice seq ((-2 - 1) * 2) ((-2 - 1) * 2 + 2)) ∧
    getOffersHashRoundRobin dbSix "RPG" (-2) 2 (some 5) 0 = none) :=
  ⟨by decide, by decide,
    negative_page_not_rejected dbSix "RPG" (-2) 2 (some 5) 0
      (by decide) (by decide) (by decide)⟩

/-- C8 counterexample: with the PHP rate 0.0178 that
`initializeExchangeRates` installs, the round trip
convertFromUSD(convertToUSD(1000.005, PHP), PHP) is 1000.0056,
off by 0.0006 > 10⁻⁴, so the claimed 4-decimal-digit tolerance does not
hold for rates below 1 (the toUSD rounding error is amplified by 1/rate on
the way back). -/
theorem currency_roundtrip_counterexample :
    ((convertToUSD cachePHP (1000.005 : ℚ) "PHP").bind
        (fun t => convertFromUSD cachePHP t "PHP"))
      = some (1000.0056 : ℚ) ∧
    ¬ (|(1000.0056 : ℚ) - 1000.005| ≤ 1 / 10000) := by
  constructor
  · have h1 : ("PHP" : String) ≠ "USD" := by decide
    simp only [convertToUSD, convertFromUSD, cachePHP, round4, pegCurrency,
      if_neg h1, if_pos, Option.some_bind]
    norm_num [round_eq]
  · norm_num [abs_le]

/-- C8 amended: in the exact-rational model of the converter's float
arithmetic, the round trip convertFromUSD(convertToUSD(a, c), c) — which
multiplies by the cached rate with toFixed(4) on the way in and by the
reciprocal 1/rate with toFixed(4) on the way out — differs from a by at
most (1/20000)·(1 + 1/rate); in particular it is within the 4-decimal
tolerance 10⁻⁴ whenever the rate is at least 1, but not in general for
smaller rates. -/
theorem currency_roundtrip_bound (cache : String → Option ℚ) (c : String)
    (rt a : ℚ) (hc : cache c = some rt) (hr : 0 < rt)
    (hne : c ≠ pegCurrency) :
    ∃ t b, convertToUSD cache a c = some t ∧
      convertFromUSD cache t c = some b ∧
      |b - a| ≤ 1 / 20000 * (1 + 1 / rt) ∧
      (1 ≤ rt → |b - a| ≤ 1 / 10000) := by
  have hrne : rt ≠ 0 := ne_of_gt hr
  have h1 := abs_round4_sub_le (a * rt)
  have h2 := abs_round4_sub_le (round4 (a * rt) / rt)
  have key : round4 (round4 (a * rt) / rt) - a
      = (round4 (round4 (a * rt) / rt) - round4 (a * rt) / rt)
        + (round4 (a * rt) - a * rt) / rt := by
    field_simp
    ring
  have habs : |round4 (round4 (a * rt) / rt) - a|
      ≤ 1 / 20000 + (1 / 20000) / rt := by
    rw [key]
    refine le_trans (abs_add _ _) ?_
    have h3 : |(round4 (a * rt) - a * rt) / rt| ≤ (1 / 20000) / rt := by
      rw [abs_div, abs_of_pos hr]
      exact (div_le_div_iff_of_pos_right hr).mpr h1
    exact add_le_add h2 h3
  have hfinal : |round4 (round4 (a * rt) / rt) - a|
      ≤ 1 / 20000 * (1 + 1 / rt) := by
    rw [mul_add, mul_one, mul_one_div]
    exact habs
  refine ⟨round4 (a * rt), round4 (round4 (a * rt) / rt), ?_, ?_, hfinal, ?_⟩
  · rw [convertToUSD, if_neg hne, hc]
    simp only [Option.some_bind]
    rw [if_neg hrne]
  · rw [convertFromUSD, if_neg hne, hc]
    simp only [Option.some_bind]
    rw [if_neg hrne, mul_one_div]
  · intro hr1
    have hinv : 1 / rt ≤ 1 := by
      rw [div_le_one hr]
      exact hr1
    calc |round4 (round4 (a * rt) / rt) - a|
        ≤ 1 / 20000 * (1 + 1 / rt) := hfinal
      _ ≤ 1 / 20000 * (1 + 1) := by
          apply mul_le_mul_of_nonneg_left (by linarith) (by norm_num)
      _ = 1 / 10000 := by norm_num

/-- Witness for C8's amended bound at a concrete rate of 2. -/
theorem currency_roundtrip_bound_witness :
    ((fun c : String => if c = "MYR" then some (2 : ℚ) else none) "MYR"
      = some (2 : ℚ)) ∧ (0 : ℚ) < 2 ∧ ("MYR" : String) ≠ pegCurrency ∧
    (∃ t b, convertToUSD (fun c => if c = "MYR" then some (2 : ℚ) else none)
        (3 : ℚ) "MYR" = some t ∧
      convertFromUSD (fun c => if c = "MYR" then some (2 : ℚ) else none)
        t "MYR" = some b ∧
      |b - 3| ≤ 1 / 20000 * (1 + 1 / 2) ∧
      (1 ≤ (2 : ℚ) → |b - 3| ≤ 1 / 10000)) :=
  ⟨by decide, by norm_num, by decide,
    currency_roundtrip_bound (fun c => if c = "MYR" then some (2 : ℚ) else none)
      "MYR" 2 3 (by decide) (by norm_num) (by decide)⟩

/-- C9: Hash Round-Robin is deterministic in its inputs: whenever two calls
resolve the same seed — in particular always when the same nonzero explicit
seed is passed, whatever the two call times — they return identical
results (same ordered offer sequence, metadata and seed). -/
theorem hashRoundRobin_deterministic (db : List Offer) (cat : String)
    (page limit0 : Int) (rs : Option Nat) (now1 now2 : Nat)
    (hseed : seedOf rs now1 = seedOf rs now2) :
    getOffersHashRoundRobin db cat page limit0 rs now1
      = getOffersHashRoundRobin db cat page limit0 rs now2 ∧
    (∀ s : Nat, s ≠ 0 → seedOf (some s) now1 = seedOf (some s) now2) := by
  constructor
  · simp only [getOffersHashRoundRobin, hseed]
  · intro s hs
    simp [seedOf, hs]

/-- Witness for C9: two calls at different times inside the same seed
window return identical results. -/
theorem hashRoundRobin_deterministic_witness :
    seedOf (some 7) 1000 = seedOf (some 7) 59999 ∧
    (getOffersHashRoundRobin dbTwo "RPG" 1 2 (some 7) 1000
      = getOffersHashRoundRobin dbTwo "RPG" 1 2 (some 7) 59999 ∧
    (∀ s : Nat, s ≠ 0 → seedOf (some s) 1000 = seedOf (some s) 59999)) :=
  ⟨by decide,
    hashRoundRobin_deterministic dbTwo "RPG" 1 2 (some 7) 1000 59999 (by decide)⟩

end Marketplace
